import Mathlib

/-!
Verification development for the minecraft-progression-server repository
(`scheduler.py`, `server.py`, `proxy.py`).

The Python source is shallowly embedded: pure computations become Lean
functions, filesystem and process effects become explicit parameters and
action traces.  Machine integers are modelled by `Nat`/`Int` (Python
integers are unbounded).  Conventions used throughout:

* The regex character class `\d` is modelled as the ASCII digits `0`-`9`
  and `\w` as ASCII alphanumerics plus underscore; none of the inputs the
  specification talks about use non-ASCII text.
* Python `str.splitlines` is modelled for the line terminator `'\n'`,
  the only terminator occurring in the files the program writes.
* The directory state of the version catalog (`servers/`) is modelled as
  the list of names of its subdirectory entries in listing order;
  non-directory entries, which the code skips, are omitted.
-/

/-- Version tuples, as produced by `parse_version` in `scheduler.py`:
`(major, minor, patch)` with unbounded non-negative components. -/
abbrev Version := Nat × Nat × Nat

/-- Model of the regex class `\d` (ASCII decimal digit, codepoints 48
through 57). -/
def isDigitChar (c : Char) : Bool := 48 ≤ c.toNat && c.toNat ≤ 57

/-- Numeric value of a big-endian list of decimal digit characters,
matching Python `int()` applied to a digit string. -/
def digitsToNat (cs : List Char) : Nat :=
  cs.foldl (fun n c => n * 10 + (c.toNat - 48)) 0

/-- Parse a nonempty all-digit character run, the semantics of one
captured `(\d+)` group fed to `int()`. -/
def parseNum (cs : List Char) : Option Nat :=
  if cs ≠ [] && cs.all isDigitChar then some (digitsToNat cs) else none

/-- Split a character list on a separator character, the semantics of
Python `str.split(sep)` for a one-character separator. -/
def splitOnCh (sep : Char) : List Char → List (List Char)
  | [] => [[]]
  | c :: cs =>
    if c = sep then [] :: splitOnCh sep cs
    else
      match splitOnCh sep cs with
      | [] => [[c]]
      | p :: ps => (c :: p) :: ps

/-- Python `re` lets `$` match just before one final newline, so
`VERSION_RE.match` also accepts a string with a single trailing `'\n'`;
this helper removes that newline before the structural decomposition. -/
def stripTrailingNL (cs : List Char) : List Char :=
  if cs.getLast? = some '\n' then cs.dropLast else cs

/-- Embedding of `parse_version` (`scheduler.py` lines 127-134): match the
anchored regex `^(\d+)\.(\d+)(?:\.(\d+))?$` and build the tuple, with the
patch group defaulting to `"0"`.  A full anchored match is equivalent to
splitting on `'.'` into exactly two or three nonempty digit runs. -/
def parse_version (name : String) : Option Version :=
  match splitOnCh '.' (stripTrailingNL name.data) with
  | [a, b] =>
    match parseNum a, parseNum b with
    | some x, some y => some (x, y, 0)
    | _, _ => none
  | [a, b, c] =>
    match parseNum a, parseNum b, parseNum c with
    | some x, some y, some z => some (x, y, z)
    | _, _, _ => none
  | _ => none

/-- Fuel-bounded canonical decimal rendering; the fuel only needs to
exceed the digit count, and structural recursion on it keeps the
definition kernel-reducible. -/
def natToDigitsAux : Nat → Nat → List Char
  | 0, _ => []
  | fuel + 1, n =>
    if n < 10 then [Char.ofNat (48 + n)]
    else natToDigitsAux fuel (n / 10) ++ [Char.ofNat (48 + n % 10)]

/-- Canonical decimal digits of a natural number, most significant first;
models Python's rendering of a non-negative `int` in an f-string. -/
def natToDigits (n : Nat) : List Char := natToDigitsAux (n + 1) n

/-- Decimal string of a natural number. -/
def natToString (n : Nat) : String := ⟨natToDigits n⟩

/-- Decimal string of a Python integer (sign included). -/
def intToString (n : Int) : String :=
  if n < 0 then "-" ++ natToString n.natAbs else natToString n.natAbs

/-- Embedding of `version_to_string` (`scheduler.py` lines 100-101):
`f"{version[0]}.{version[1]}.{version[2]}"`. -/
def version_to_string (v : Version) : String :=
  natToString v.1 ++ "." ++ natToString v.2.1 ++ "." ++ natToString v.2.2

/-- One step of the stable insertion sort on the key `x[1]` (the minor
component): the new element goes in front of the first element whose key
is not smaller, which preserves the relative order of equal keys exactly
as Python's stable `list.sort(key=lambda x: x[1])` does. -/
def sortByMinorInsert (x : Version) : List Version → List Version
  | [] => [x]
  | y :: ys => if x.2.1 ≤ y.2.1 then x :: y :: ys else y :: sortByMinorInsert x ys

/-- Stable sort of a version list by the minor component, the model of
`items.sort(key=lambda x: x[1])` in `get_versions`. -/
def sortByMinor : List Version → List Version
  | [] => []
  | x :: xs => sortByMinorInsert x (sortByMinor xs)

/-- Embedding of `get_versions` (`scheduler.py` lines 137-148): the
sentinel `(0,0,0)` is appended first, then every catalog entry whose name
parses as a version, and the whole list is sorted (stably) by the minor
component.  `entries` is the catalog directory state. -/
def get_versions (entries : List String) : List Version :=
  sortByMinor ((0, 0, 0) :: entries.filterMap parse_version)

/-- Position of the first occurrence of an element, the semantics of
Python `list.index` (whose `ValueError` on absence is ruled out by the
membership guard at every call site). -/
def listIndex (a : Version) : List Version → Nat
  | [] => 0
  | b :: bs => if b = a then 0 else listIndex a bs + 1

/-- Embedding of the version-selection step of `upgrade_version`
(`scheduler.py` lines 156-164): if the current version occurs in the
catalog list, take the element after its first occurrence, or report
`none` ("No later versions are available!") when that occurrence is last;
otherwise take the first element of the list (which is never empty for
`get_versions` output). -/
def nextVersion (versions : List Version) (current : Version) : Option Version :=
  if current ∈ versions then
    let i := listIndex current versions
    if i + 1 < versions.length then some (versions.getD (i + 1) (0, 0, 0)) else none
  else versions.head?

/-- Repeated application of `nextVersion`, recording the versions visited;
fuel-bounded since the Python loop has no intrinsic bound. -/
def iterateNext (versions : List Version) : Version → Nat → List Version
  | _, 0 => []
  | cur, n + 1 =>
    match nextVersion versions cur with
    | none => []
    | some v => v :: iterateNext versions v n

/-- Lexicographic order on version tuples, the order the specification
asserts for the catalog ("total order by (major, minor, patch)"). -/
def lexLE (v w : Version) : Prop :=
  v.1 < w.1 ∨ (v.1 = w.1 ∧ (v.2.1 < w.2.1 ∨ (v.2.1 = w.2.1 ∧ v.2.2 ≤ w.2.2)))

instance : DecidablePred fun p : Version × Version => lexLE p.1 p.2 := by
  intro p; unfold lexLE; infer_instance

instance (v w : Version) : Decidable (lexLE v w) := by
  unfold lexLE; infer_instance

example : parse_version "1.16.4" = some (1, 16, 4) := by decide
example : parse_version "1.16" = some (1, 16, 0) := by decide
example : parse_version "1.16.4.2" = none := by decide
example : parse_version "1..2" = none := by decide
example : parse_version "v1.2" = none := by decide
example : parse_version "1.2\n" = some (1, 2, 0) := by decide
example : version_to_string (1, 16, 4) = "1.16.4" := by decide
example : get_versions ["1.16.0", "1.2.3", "junk"] = [(0,0,0), (1,2,3), (1,16,0)] := by decide
example : get_versions ["2.0.0", "1.5.0"] = [(0,0,0), (2,0,0), (1,5,0)] := by decide
example : nextVersion [(0,0,0), (1,2,0)] (0,0,0) = some (1,2,0) := by decide
example : nextVersion [(0,0,0), (1,2,0)] (1,2,0) = none := by decide
example : nextVersion [(0,0,0), (1,2,0)] (9,9,9) = some (0,0,0) := by decide

/-- Scalar JSON leaf values as they reach the flattened property dict in
`apply_properties` (`scheduler.py` lines 53-97). -/
inductive JVal
  | str (s : String)
  | int (n : Int)
  | bool (b : Bool)
  | null
deriving DecidableEq

/-- JSON documents: the nesting structure `_walk` recurses over. -/
inductive Json
  | obj (fields : List (String × Json))
  | arr (items : List Json)
  | leaf (v : JVal)

mutual

/-- Embedding of the `_walk` flattener inside `apply_properties`
(`scheduler.py` lines 58-68): nested mappings become dotted keys, list
items become `[i].` segments, and a scalar leaf records `prefix[:-1]`.
The Python result is a dict; this model keeps the insertion-ordered
association list, which coincides with the dict for documents whose
flattened keys are distinct. -/
def walkJson : Json → String → List (String × JVal)
  | .leaf v, pfx => [(pfx.dropRight 1, v)]
  | .obj fs, pfx => walkFields fs pfx
  | .arr xs, pfx => walkItems xs pfx 0

/-- Flattening of the fields of a JSON object, in order. -/
def walkFields : List (String × Json) → String → List (String × JVal)
  | [], _ => []
  | (k, v) :: rest, pfx => walkJson v (pfx ++ k ++ ".") ++ walkFields rest pfx

/-- Flattening of the items of a JSON array, with running index. -/
def walkItems : List Json → String → Nat → List (String × JVal)
  | [], _, _ => []
  | v :: rest, pfx, i =>
      walkJson v (pfx ++ "[" ++ natToString i ++ "].") ++ walkItems rest pfx (i + 1)

end

/-- Embedding of the two version-gated `match` remaps in
`apply_properties` (`scheduler.py` lines 70-88): for the keys
`difficulty` and `gamemode`, when the target minor version is below 14,
an enumerated string is replaced by its ordinal; any other value falls
through unchanged. -/
def remapValue (version : Version) (key : String) (v : JVal) : JVal :=
  let v1 :=
    if key = "difficulty" ∧ version.2.1 < 14 then
      match v with
      | .str "peaceful" => .int 0
      | .str "easy" => .int 1
      | .str "normal" => .int 2
      | .str "hard" => .int 3
      | _ => v
    else v
  if key = "gamemode" ∧ version.2.1 < 14 then
    match v1 with
    | .str "survival" => .int 0
    | .str "creative" => .int 1
    | .str "adventure" => .int 2
    | _ => v1
  else v1

/-- Embedding of the value serialization in `apply_properties`
(`scheduler.py` lines 91-94): booleans render as lowercase
`true`/`false` via `str(value).lower()`, everything else via `str`. -/
def valueToString : JVal → String
  | .str s => s
  | .int n => intToString n
  | .bool b => if b then "true" else "false"
  | .null => "None"

/-- Model of the regex class `\w` (ASCII word character). -/
def isWordChar (c : Char) : Bool := c.isAlphanum || c = '_'

/-- Word-ness of an optional character, with "no character" (string
edge) counting as non-word, as the regex `\b` rule prescribes. -/
def wordAt : Option Char → Bool
  | none => false
  | some c => isWordChar c

/-- Position between two (optional) characters is a `\b` boundary when
exactly one side is a word character. -/
def boundary (a b : Option Char) : Bool := wordAt a != wordAt b

/-- Scan of a line for a `\b key \b` occurrence starting at each suffix,
carrying the character just before the suffix; models
`re.search(rf"\b{key}\b", line)` for a key free of regex
metacharacters (every key the program uses for the two gated options and
the ordinary property names is such a literal). -/
def searchKeyFrom (key : List Char) : Option Char → List Char → Bool
  | prev, [] =>
    key.isPrefixOf [] && boundary prev key.head? && boundary key.getLast? none
  | prev, c :: cs =>
    (key.isPrefixOf (c :: cs) && boundary prev key.head? &&
      boundary key.getLast? (((c :: cs).drop key.length).head?))
    || searchKeyFrom key (some c) cs

/-- Whether a line contains a word-boundary occurrence of the key. -/
def searchKey (key line : List Char) : Bool := searchKeyFrom key none line

/-- Python `str.splitlines(True)` modelled for `'\n'`: cut after every
newline, keeping the terminators, with a possibly unterminated last
piece. -/
def splitKeepNLAux : List Char → List Char → List (List Char)
  | acc, [] => if acc = [] then [] else [acc.reverse]
  | acc, c :: cs =>
    if c = '\n' then (acc.reverse ++ ['\n']) :: splitKeepNLAux [] cs
    else splitKeepNLAux (c :: acc) cs

/-- Split file content into lines, keeping line terminators. -/
def splitKeepNL (cs : List Char) : List (List Char) := splitKeepNLAux [] cs

/-- Newline suffix preserved by a line replacement
(`"\n" if line.endswith("\n") else ""`). -/
def nlSuffix (l : List Char) : List Char :=
  if l.getLast? = some '\n' then ['\n'] else []

/-- Core of `replace_line_in_file` (`scheduler.py` lines 20-50) with the
default `replace_first=False` used by every caller: walk the lines, and
at the first line where the pattern search succeeds substitute the
replacement (keeping the terminator), leaving all other lines intact;
report whether a replacement happened. -/
def replaceInLines (key repl : List Char) : List (List Char) → List (List Char) × Bool
  | [] => ([], false)
  | l :: ls =>
    if searchKey key l then ((repl ++ nlSuffix l) :: ls, true)
    else
      let r := replaceInLines key repl ls
      (l :: r.1, r.2)

/-- Embedding of `replace_line_in_file` on explicit file content: split
into kept-terminator lines, replace, and join; the file is rewritten only
when a line matched, so unmatched content is returned verbatim. -/
def replace_line_in_file (key repl content : String) : String × Bool :=
  let r := replaceInLines key.data repl.data (splitKeepNL content.data)
  if r.2 then (⟨r.1.flatten⟩, true) else (content, false)

/-- Embedding of the per-key loop of `apply_properties` (`scheduler.py`
lines 70-97) over an already-flattened document: each key's value is
remapped, serialized, and written over the first matching line of the
properties file; the function returns the final file content together
with the (remapped) flattened dict that Python returns. -/
def applyPropsFlat (version : Version) : List (String × JVal) → String → String × List (String × JVal)
  | [], content => (content, [])
  | (k, v) :: rest, content =>
    let v2 := remapValue version k v
    let step := replace_line_in_file k (k ++ "=" ++ valueToString v2) content
    let r := applyPropsFlat version rest step.1
    (r.1, (k, v2) :: r.2)

/-- Embedding of `apply_properties` (`scheduler.py` lines 53-97) with the
configuration document and the current `server.properties` content made
explicit. -/
def apply_properties (version : Version) (doc : Json) (content : String) :
    String × List (String × JVal) :=
  applyPropsFlat version (walkJson doc "") content

/-- Overlay scenario document from the specification. -/
def scenarioDoc : Json :=
  .obj [("difficulty", .leaf (.str "hard")), ("gamemode", .leaf (.str "survival"))]

example : walkJson scenarioDoc "" =
    [("difficulty", .str "hard"), ("gamemode", .str "survival")] := by decide
example : searchKey "difficulty".data "difficulty=easy\n".data = true := by decide
example : searchKey "difficulty".data "xdifficulty=easy\n".data = false := by decide
example : apply_properties (1, 12, 0) scenarioDoc "difficulty=easy\ngamemode=creative\n" =
    ("difficulty=3\ngamemode=0\n", [("difficulty", .int 3), ("gamemode", .int 0)]) := by decide
example : apply_properties (1, 16, 0) scenarioDoc "difficulty=easy\ngamemode=creative\n" =
    ("difficulty=hard\ngamemode=survival\n",
      [("difficulty", .str "hard"), ("gamemode", .str "survival")]) := by decide

/-- Python `str.splitlines()` modelled for `'\n'`: split on newlines and
drop the trailing empty piece produced by a terminating newline. -/
def splitlinesNL (s : String) : List String :=
  let ps := splitOnCh '\n' s.data
  let ps := if ps.getLast? = some [] then ps.dropLast else ps
  ps.map fun cs => ⟨cs⟩

/-- Outcome of a Python call: a returned value or a raised exception. -/
inductive PyResult (α : Type)
  | ok (a : α)
  | exn (msg : String)
deriving DecidableEq

/-- Embedding of `get_version` (`scheduler.py` lines 111-116) on explicit
file content for an existing `current.txt`: the two-element unpacking of
`splitlines()` raises `ValueError` unless the file has exactly two lines,
and otherwise the function returns whatever `parse_version` yields for
the first line — including `None` when that line is not a version, with
no exception raised. -/
def get_version_model (content : String) : PyResult (Option Version) :=
  match splitlinesNL content with
  | [versionStr, _tsStr] => .ok (parse_version versionStr)
  | _ => .exn "ValueError: unpacking"

example : get_version_model "1.16.0\n2000-01-01 00:00:00+00:00" = .ok (some (1, 16, 0)) := by decide
example : get_version_model "1.16.0" = .exn "ValueError: unpacking" := by decide

/-- Scheduler settings consulted by `check_updates` (`scheduler.py`
lines 232-264). -/
structure Settings where
  update_frequency_days : Nat
  update_weekday : String
  update_time_utc : Nat

/-- Embedding of the weekday `match` in `check_updates` (`scheduler.py`
lines 239-255): the variable is initialized to 0 and only the seven known
names change it, so an unknown name means Monday. -/
def weekdayOfString (s : String) : Nat :=
  if s = "monday" then 0
  else if s = "tuesday" then 1
  else if s = "wednesday" then 2
  else if s = "thursday" then 3
  else if s = "friday" then 4
  else if s = "saturday" then 5
  else if s = "sunday" then 6
  else 0

/-- Microseconds per day; `datetime` arithmetic is exact at microsecond
resolution, so instants are modelled as integer microsecond counts. -/
def usPerDay : Int := 86400000000

/-- Embedding of the gating logic of `check_updates` (`scheduler.py`
lines 232-264): the poll tick observes the recorded activation instant,
the current UTC instant, the local weekday of `datetime.today()` and the
current UTC hour; the migration is invoked only when none of the three
early returns fires. -/
def check_updates_fires (s : Settings) (updateTime nowUtc : Int)
    (todayWeekday nowHour : Nat) : Bool :=
  if updateTime + s.update_frequency_days * usPerDay > nowUtc then false
  else if todayWeekday ≠ weekdayOfString s.update_weekday then false
  else if s.update_time_utc ≠ nowHour then false
  else true

/-- Observable side effects of `upgrade_version` (`scheduler.py`
lines 151-211) past the version-selection step. -/
inductive UpgradeAction
  | stopProxy
  | stopServer
  | renameCurrentToOld
  | makeCurrentDir
  | copyWorldAttempt
  | copyServerJar
  | writeEulaIfMissing
  | runConfigGen
  | applyOverlay
  | commitRecord (v : Version)
  | startServer
  | setProxyVersion (v : Version)
  | startProxy
  | notifyDiscord
deriving DecidableEq

/-- Environment outcome of the `os.rename("current", "old")` call. -/
inductive RenameOutcome
  | ok
  | permissionDenied
  | notFound
  | otherOSError
deriving DecidableEq

/-- Embedding of `upgrade_version` (`scheduler.py` lines 151-211) as the
trace of state mutations it performs, parameterized by the current
version, the catalog directory state, the rename outcome and which
supervised processes were supplied.  The first component records whether
the "No later versions are available!" report was emitted; in that case
the function returns before any mutation.  On a failed rename
(permission or other OS error) the function aborts after the process
stops; a missing source directory is ignored and the workflow
continues. -/
def upgrade_version_model (current : Version) (entries : List String)
    (r : RenameOutcome) (hasServer hasProxy : Bool) : Bool × List UpgradeAction :=
  match nextVersion (get_versions entries) current with
  | none => (true, [])
  | some v =>
    let stops := (if hasProxy then [UpgradeAction.stopProxy] else []) ++
      (if hasServer then [UpgradeAction.stopServer] else [])
    let tail := [UpgradeAction.makeCurrentDir, UpgradeAction.copyWorldAttempt, UpgradeAction.copyServerJar,
      UpgradeAction.writeEulaIfMissing, UpgradeAction.runConfigGen, UpgradeAction.applyOverlay,
      UpgradeAction.commitRecord v] ++
      (if hasServer then [UpgradeAction.startServer] else []) ++
      (if hasProxy then [UpgradeAction.setProxyVersion v, UpgradeAction.startProxy] else []) ++
      [UpgradeAction.notifyDiscord]
    match r with
    | .permissionDenied => (false, stops)
    | .otherOSError => (false, stops)
    | .ok => (false, stops ++ [UpgradeAction.renameCurrentToOld] ++ tail)
    | .notFound => (false, stops ++ tail)

example : upgrade_version_model (0, 0, 0) [] .ok true true = (true, []) := by decide
example : (upgrade_version_model (0, 0, 0) ["1.16.0"] .ok true true).1 = false := by decide

/-- Internal state of one supervised process (`JavaServer` in
`server.py`, `ProxyServer` in `proxy.py`): whether `_proc` is set and
its child still running, whether `_thread` is set and alive, and the
`_stop_event` flag. -/
structure ProcState where
  hasProc : Bool
  procLive : Bool
  hasThread : Bool
  threadLive : Bool
  stopFlag : Bool
deriving DecidableEq

/-- Steps a `stop()` call can perform, in order. -/
inductive StopAction
  | setFlag
  | terminate
  | waitProc
  | kill
  | waitAfterKill
  | joinThread
  | warnThreadAlive
  | resetState
deriving DecidableEq

/-- Embedding of `JavaServer.stop` (`server.py` lines 43-67) and of the
textually identical `ProxyServer.stop` (`proxy.py` lines 45-69): set the
stop flag; if a live child process exists, terminate it and wait,
escalating to kill on a wait timeout; if a worker thread exists, join it
(warning if it is still alive afterwards); finally reset `_thread`,
`_proc` and the stop event unconditionally.  `graceful` tells whether the
child exited within the wait timeout, `threadFinishes` whether the join
completed. -/
def procStop (s : ProcState) (graceful threadFinishes : Bool) : ProcState × List StopAction :=
  let procActs :=
    if s.hasProc && s.procLive then
      [StopAction.terminate] ++
        (if graceful then [StopAction.waitProc]
         else [StopAction.waitProc, StopAction.kill, StopAction.waitAfterKill])
    else []
  let threadActs :=
    if s.hasThread then
      [StopAction.joinThread] ++ (if threadFinishes then [] else [StopAction.warnThreadAlive])
    else []
  (⟨false, false, false, false, false⟩,
    [StopAction.setFlag] ++ procActs ++ threadActs ++ [StopAction.resetState])

/-- Embedding of `JavaServer.start` (`server.py` lines 31-41) and the
textually identical `ProxyServer.start` (`proxy.py` lines 33-43): a
no-op (returning `false`) when a live worker thread exists, otherwise a
fresh worker thread is spawned (returning `true`). -/
def procStart (s : ProcState) : ProcState × Bool :=
  if s.hasThread && s.threadLive then (s, false)
  else ({ s with hasThread := true, threadLive := true }, true)

example : (procStop ⟨true, true, true, true, false⟩ true true).1 =
    ⟨false, false, false, false, false⟩ := by decide
example : (procStop ⟨false, false, false, false, false⟩ true true).2 =
    [StopAction.setFlag, StopAction.resetState] := by decide

lemma sortByMinorInsert_sentinel (ys : List Version) :
    sortByMinorInsert (0, 0, 0) ys = (0, 0, 0) :: ys := by
  cases ys with
  | nil => rfl
  | cons y ys => simp [sortByMinorInsert]

lemma get_versions_eq_sentinel_cons (entries : List String) :
    get_versions entries =
      (0, 0, 0) :: sortByMinor (entries.filterMap parse_version) := by
  simp only [get_versions, sortByMinor]
  exact sortByMinorInsert_sentinel _

lemma listIndex_lt_length {a : Version} {l : List Version} (h : a ∈ l) :
    listIndex a l < l.length := by
  induction l with
  | nil => cases h
  | cons b bs ih =>
    by_cases hb : b = a
    · simp [listIndex, hb]
    · rcases List.mem_cons.mp h with h1 | h2
      · exact absurd h1.symm hb
      · simpa [listIndex, hb] using ih h2

/-- C10: for every catalog directory state, `get_versions` returns a
non-empty list starting with the sentinel `(0,0,0)` (the sentinel is
appended before the directory entries and the stable sort keeps it in
front of every element of its minimal minor key), so when
`upgrade_version` is invoked with a current version absent from the
catalog, the selected upgrade target is the sentinel itself. -/
theorem get_versions_head_sentinel (entries : List String) :
    (get_versions entries).head? = some (0, 0, 0) ∧
      ∀ current : Version, current ∉ get_versions entries →
        nextVersion (get_versions entries) current = some (0, 0, 0) := by
  constructor
  · rw [get_versions_eq_sentinel_cons]
    rfl
  · intro current hmem
    unfold nextVersion
    rw [if_neg hmem, get_versions_eq_sentinel_cons]
    rfl

/-- Witness for C10 at a concrete catalog: current version `(9,9,9)` is
absent, and the selected target is the sentinel. -/
theorem get_versions_head_sentinel_witness :
    (get_versions ["1.16.0"]).head? = some (0, 0, 0) ∧
      nextVersion (get_versions ["1.16.0"]) (9, 9, 9) = some (0, 0, 0) :=
  ⟨(get_versions_head_sentinel ["1.16.0"]).1,
    (get_versions_head_sentinel ["1.16.0"]).2 (9, 9, 9) (by decide)⟩

/-- C1: evaluation of `get_versions` at the catalog `2.0.0, 1.5.0`.
The code sorts with the key `x[1]` (minor component only), so `(2,0,0)`
is placed before `(1,5,0)`, an adjacent pair that violates the
lexicographic (major, minor, patch) order the claim asserts; the
specification itself flags full tuple order as the intended one. -/
theorem get_versions_sorts_by_minor_only :
    get_versions ["2.0.0", "1.5.0"] = [(0, 0, 0), (2, 0, 0), (1, 5, 0)] ∧
      ¬ lexLE (2, 0, 0) (1, 5, 0) := by
  decide

/-- C6: evaluation of the embedded `get_version` at a record whose first
line is not a valid version: the two-line unpacking succeeds and
`parse_version` returns `None`, which `get_version` passes through —
the call returns a null value silently instead of raising. -/
theorem get_version_silent_none_on_bad_record :
    get_version_model "not-a-version\n2000-01-01 00:00:00.000000+00:00" =
      PyResult.ok none := by
  decide

/-- C2 counterexample: the catalog entries `1.2` and `1.2.0` both parse
to `(1,2,0)`, so the catalog list holds a duplicate.  The current version
`(1,2,0)` is the last element of the catalog, yet `nextVersion` returns
`some (1,2,0)` (the element after the first occurrence) instead of
reporting none; iterating from the sentinel therefore visits `(1,2,0)`
over and over (five visits shown for a catalog of three elements) and
never reports "no later versions". -/
theorem nextVersion_duplicate_catalog_counterexample :
    get_versions ["1.2", "1.2.0"] = [(0, 0, 0), (1, 2, 0), (1, 2, 0)] ∧
      (get_versions ["1.2", "1.2.0"]).getLast? = some (1, 2, 0) ∧
      nextVersion (get_versions ["1.2", "1.2.0"]) (1, 2, 0) = some (1, 2, 0) ∧
      iterateNext (get_versions ["1.2", "1.2.0"]) (0, 0, 0) 5 =
        [(1, 2, 0), (1, 2, 0), (1, 2, 0), (1, 2, 0), (1, 2, 0)] := by
  decide

/-- C4: when the current version sits at the last position of the catalog
list — in particular when the catalog is just the sentinel and the
current version is the sentinel — `upgrade_version` reports that no
upgrade is available and returns with an empty mutation trace: no stop,
no rename, no directory creation, no copy, no record commit, no
restart, regardless of the rename environment or which processes were
supplied. -/
theorem upgrade_version_last_no_side_effects
    (entries : List String) (current : Version) (r : RenameOutcome)
    (hasServer hasProxy : Bool)
    (hmem : current ∈ get_versions entries)
    (hlast : listIndex current (get_versions entries) + 1 = (get_versions entries).length) :
    upgrade_version_model current entries r hasServer hasProxy = (true, []) := by
  unfold upgrade_version_model nextVersion
  rw [if_pos hmem, if_neg (by omega)]

/-- Witness for C4: the catalog directory is empty, so the catalog is
exactly the sentinel, and the sentinel is the current version. -/
theorem upgrade_version_last_no_side_effects_witness :
    upgrade_version_model (0, 0, 0) [] .ok true true = (true, []) :=
  upgrade_version_last_no_side_effects [] (0, 0, 0) .ok true true (by decide) (by decide)

/-- C5: the gating check invokes the migration exactly when the elapsed
time since the recorded activation reaches the configured number of
days, the observed weekday equals the configured target weekday, and
the observed UTC hour equals the configured target hour; and with
`update_frequency_days = 7` a poll tick six days after activation never
fires, whatever the weekday and hour observations are. -/
theorem check_updates_gating :
    (∀ (s : Settings) (updateTime nowUtc : Int) (todayWeekday nowHour : Nat),
      check_updates_fires s updateTime nowUtc todayWeekday nowHour = true ↔
        (nowUtc - updateTime ≥ s.update_frequency_days * usPerDay ∧
          todayWeekday = weekdayOfString s.update_weekday ∧
          s.update_time_utc = nowHour)) ∧
    ∀ (wd : String) (utc : Nat) (t : Int) (w h : Nat),
      check_updates_fires ⟨7, wd, utc⟩ t (t + 6 * usPerDay) w h = false := by
  have main : ∀ (s : Settings) (updateTime nowUtc : Int) (todayWeekday nowHour : Nat),
      check_updates_fires s updateTime nowUtc todayWeekday nowHour = true ↔
        (nowUtc - updateTime ≥ s.update_frequency_days * usPerDay ∧
          todayWeekday = weekdayOfString s.update_weekday ∧
          s.update_time_utc = nowHour) := by
    intro s updateTime nowUtc todayWeekday nowHour
    unfold check_updates_fires
    split_ifs with h1 h2 h3
    · simp only [false_iff]
      intro hc
      omega
    · simp only [false_iff]
      intro hc
      exact h2 hc.2.1
    · simp only [false_iff]
      intro hc
      exact h3 hc.2.2
    · simp only [true_iff]
      exact ⟨by omega, by omega, by omega⟩
  refine ⟨main, ?_⟩
  intro wd utc t w h
  cases hb : check_updates_fires ⟨7, wd, utc⟩ t (t + 6 * usPerDay) w h with
  | false => rfl
  | true =>
    exfalso
    have hge := ((main ⟨7, wd, utc⟩ t (t + 6 * usPerDay) w h).mp hb).1
    have h7 : (Settings.mk 7 wd utc).update_frequency_days = 7 := rfl
    rw [h7] at hge
    unfold usPerDay at hge
    omega

/-- C8: `stop()` (identical in `JavaServer` and `ProxyServer`) always
leaves the state with no process handle, no worker thread and a cleared
stop flag; a second call from that state performs only the flag-set and
the unconditional reset — touching no process and no thread, so nothing
in its body can raise — and a subsequent `start()` spawns a fresh worker
thread rather than hitting the already-running guard. -/
theorem procStop_idempotent_reset (s : ProcState) (g t g2 t2 : Bool) :
    ((procStop s g t).1.hasProc = false ∧ (procStop s g t).1.hasThread = false ∧
      (procStop s g t).1.stopFlag = false) ∧
    (procStop (procStop s g t).1 g2 t2).2 = [StopAction.setFlag, StopAction.resetState] ∧
    (procStart (procStop s g t).1).2 = true ∧
    (procStart (procStop s g t).1).1.hasThread = true ∧
    (procStart (procStop s g t).1).1.threadLive = true :=
  ⟨⟨rfl, rfl, rfl⟩, rfl, rfl, rfl, rfl⟩

/-- Difficulty remap table as the specification words it: an enumerated
string maps to its fixed ordinal, anything else is left untouched. -/
def specDifficultyRemap : JVal → JVal
  | .str "peaceful" => .int 0
  | .str "easy" => .int 1
  | .str "normal" => .int 2
  | .str "hard" => .int 3
  | v => v

/-- Gamemode remap table as the specification words it. -/
def specGamemodeRemap : JVal → JVal
  | .str "survival" => .int 0
  | .str "creative" => .int 1
  | .str "adventure" => .int 2
  | v => v

/-- C3: the overlay applier remaps the values of the keys `difficulty`
and `gamemode` through the fixed enumeration tables exactly when the
target minor version is below 14 (values outside the enumeration pass
through untouched, and at minor 14 or above every value passes through),
and on the specification's scenario document the applier rewrites the
matching lines to `difficulty=3` and `gamemode=0` at version `(1,12,0)`
and to `difficulty=hard` and `gamemode=survival` at version
`(1,16,0)`. -/
theorem apply_properties_version_gated_remap :
    (∀ (ver : Version) (v : JVal),
      remapValue ver "difficulty" v =
        if ver.2.1 < 14 then specDifficultyRemap v else v) ∧
    (∀ (ver : Version) (v : JVal),
      remapValue ver "gamemode" v =
        if ver.2.1 < 14 then specGamemodeRemap v else v) ∧
    apply_properties (1, 12, 0) scenarioDoc "difficulty=easy\ngamemode=creative\n" =
      ("difficulty=3\ngamemode=0\n", [("difficulty", .int 3), ("gamemode", .int 0)]) ∧
    apply_properties (1, 16, 0) scenarioDoc "difficulty=easy\ngamemode=creative\n" =
      ("difficulty=hard\ngamemode=survival\n",
        [("difficulty", .str "hard"), ("gamemode", .str "survival")]) := by
  refine ⟨?_, ?_, by decide, by decide⟩
  · intro ver v
    by_cases h14 : ver.2.1 < 14
    · rw [if_pos h14]
      unfold remapValue
      rw [if_neg (fun hc => absurd hc.1 (by decide)), if_pos ⟨rfl, h14⟩]
      unfold specDifficultyRemap
      split <;> rfl
    · rw [if_neg h14]
      unfold remapValue
      rw [if_neg (fun hc => absurd hc.2 h14), if_neg (fun hc => absurd hc.2 h14)]
  · intro ver v
    by_cases h14 : ver.2.1 < 14
    · rw [if_pos h14]
      unfold remapValue
      rw [if_pos ⟨rfl, h14⟩, if_neg (fun hc => absurd hc.1 (by decide))]
      unfold specGamemodeRemap
      split <;> rfl
    · rw [if_neg h14]
      unfold remapValue
      rw [if_neg (fun hc => absurd hc.2 h14), if_neg (fun hc => absurd hc.2 h14)]

/-- Index of the first line satisfying a predicate, as the specification
words the applier's target selection ("the first line ... matching"). -/
def firstMatch? (p : List Char → Bool) : List (List Char) → Option Nat
  | [] => none
  | l :: ls => if p l then some 0 else (firstMatch? p ls).map (· + 1)

/-- C9: the line rewriter replaces exactly the first line containing a
word-boundary occurrence of the key — substituting the whole line and
keeping its terminator — and leaves every other line unchanged; the line
count never changes (nothing is appended); boolean values serialize as
lowercase `true`/`false` and other scalars via their natural string
form; the applier processes a flattened key by writing
`key=value` over the file; and when no line matched, the file content is
returned entirely unmodified. -/
theorem overlay_first_match_line_replacement :
    (∀ (key repl : List Char) (lines : List (List Char)),
      replaceInLines key repl lines =
        match firstMatch? (fun l => searchKey key l) lines with
        | some i => (lines.set i (repl ++ nlSuffix (lines.getD i [])), true)
        | none => (lines, false)) ∧
    (∀ (key repl : List Char) (lines : List (List Char)),
      (replaceInLines key repl lines).1.length = lines.length) ∧
    valueToString (.bool true) = "true" ∧
    valueToString (.bool false) = "false" ∧
    (∀ s : String, valueToString (.str s) = s) ∧
    (∀ n : Int, valueToString (.int n) = intToString n) ∧
    (∀ (ver : Version) (k : String) (v : JVal) (content : String),
      applyPropsFlat ver [(k, v)] content =
        ((replace_line_in_file k (k ++ "=" ++ valueToString (remapValue ver k v)) content).1,
          [(k, remapValue ver k v)])) ∧
    (∀ (key repl content : String),
      (replace_line_in_file key repl content).2 = false →
        (replace_line_in_file key repl content).1 = content) := by
  have hmain : ∀ (key repl : List Char) (lines : List (List Char)),
      replaceInLines key repl lines =
        match firstMatch? (fun l => searchKey key l) lines with
        | some i => (lines.set i (repl ++ nlSuffix (lines.getD i [])), true)
        | none => (lines, false) := by
    intro key repl lines
    induction lines with
    | nil => rfl
    | cons l ls ih =>
      by_cases hp : searchKey key l
      · simp [replaceInLines, firstMatch?, hp]
      · cases h : firstMatch? (fun l => searchKey key l) ls with
        | none => simp [replaceInLines, firstMatch?, hp, ih, h]
        | some i => simp [replaceInLines, firstMatch?, hp, ih, h]
  refine ⟨hmain, ?_, rfl, rfl, fun _ => rfl, fun _ => rfl, fun _ _ _ _ => rfl, ?_⟩
  · intro key repl lines
    rw [hmain]
    cases h : firstMatch? (fun l => searchKey key l) lines with
    | none => rfl
    | some i => simp
  · intro key repl content h
    unfold replace_line_in_file at h ⊢
    by_cases hr : (replaceInLines key.data repl.data (splitKeepNL content.data)).2
    · simp [hr] at h
    · rw [if_neg hr]

/-- Witness for C9 at a concrete no-match input: the key `difficulty`
occurs on no line of `motd=hi`, the replaced flag is false and the file
content is returned unmodified. -/
theorem overlay_first_match_line_replacement_witness :
    (replace_line_in_file "difficulty" "difficulty=3" "motd=hi\n").2 = false ∧
      (replace_line_in_file "difficulty" "difficulty=3" "motd=hi\n").1 = "motd=hi\n" :=
  ⟨by decide,
    overlay_first_match_line_replacement.2.2.2.2.2.2.2 "difficulty" "difficulty=3"
      "motd=hi\n" (by decide)⟩

lemma getD_mem_of_lt {l : List Version} {i : Nat} (d : Version) (h : i < l.length) :
    l.getD i d ∈ l := by
  induction l generalizing i with
  | nil => simp at h
  | cons b bs ih =>
    cases i with
    | zero => simp
    | succ i =>
      simp only [List.getD_cons_succ]
      exact List.mem_cons_of_mem _ (ih (by simpa using h))

lemma listIndex_getD {l : List Version} (hnd : l.Nodup) {i : Nat} (h : i < l.length) :
    listIndex (l.getD i (0, 0, 0)) l = i := by
  induction l generalizing i with
  | nil => simp at h
  | cons b bs ih =>
    rcases List.nodup_cons.mp hnd with ⟨hb, hnd2⟩
    cases i with
    | zero => simp [listIndex]
    | succ i =>
      have hi : i < bs.length := by simpa using h
      have hne : b ≠ bs.getD i (0, 0, 0) := by
        intro he
        exact hb (he ▸ getD_mem_of_lt (0, 0, 0) hi)
      simp only [List.getD_cons_succ, listIndex]
      rw [if_neg hne, ih hnd2 hi]

lemma nextVersion_getD_succ {l : List Version} (hnd : l.Nodup) {i : Nat}
    (h : i + 1 < l.length) :
    nextVersion l (l.getD i (0, 0, 0)) = some (l.getD (i + 1) (0, 0, 0)) := by
  have hmem : l.getD i (0, 0, 0) ∈ l := getD_mem_of_lt _ (by omega)
  unfold nextVersion
  rw [if_pos hmem]
  simp only [listIndex_getD hnd (by omega : i < l.length)]
  rw [if_pos h]

lemma nextVersion_getD_last {l : List Version} (hnd : l.Nodup) {i : Nat}
    (hi : i < l.length) (h : i + 1 = l.length) :
    nextVersion l (l.getD i (0, 0, 0)) = none := by
  have hmem : l.getD i (0, 0, 0) ∈ l := getD_mem_of_lt _ hi
  unfold nextVersion
  rw [if_pos hmem]
  simp only [listIndex_getD hnd hi]
  rw [if_neg (by omega)]

lemma iterateNext_getD {l : List Version} (hnd : l.Nodup) :
    ∀ (n i : Nat), i < l.length → l.length - (i + 1) ≤ n →
      iterateNext l (l.getD i (0, 0, 0)) n = l.drop (i + 1) := by
  intro n
  induction n with
  | zero =>
    intro i hi hn
    have : l.length ≤ i + 1 := by omega
    simp [iterateNext, List.drop_eq_nil_of_le this]
  | succ n ih =>
    intro i hi hn
    by_cases hlt : i + 1 < l.length
    · have hstep := nextVersion_getD_succ hnd hlt
      simp only [iterateNext, hstep]
      rw [ih (i + 1) hlt (by omega)]
      have hgd : l.getD (i + 1) (0, 0, 0) = l[i + 1] := by
        simp [List.getD_eq_getElem?_getD, List.getElem?_eq_getElem hlt]
      rw [hgd, ← List.drop_eq_getElem_cons hlt]
    · have hstep := nextVersion_getD_last hnd hi (by omega)
      simp only [iterateNext, hstep]
      have : l.length ≤ i + 1 := by omega
      rw [List.drop_eq_nil_of_le this]

/-- C2 (amended): provided the catalog entries parse to pairwise distinct
versions, the selection step of `upgrade_version` yields the element
after the current version's position when one exists, reports none
available when the current version is the last element, and yields the
catalog head when the current version is absent; consequently,
repeatedly applying it from the sentinel visits every cataloged version
exactly once in catalog order and then reports none.  (Without the
distinctness proviso the claim fails — see the counterexample with the
entries `1.2` and `1.2.0`.) -/
theorem nextVersion_nodup_iteration (entries : List String)
    (hnd : (get_versions entries).Nodup) :
    (∀ i : Nat, i + 1 < (get_versions entries).length →
      nextVersion (get_versions entries) ((get_versions entries).getD i (0, 0, 0)) =
        some ((get_versions entries).getD (i + 1) (0, 0, 0))) ∧
    (∀ i : Nat, i + 1 = (get_versions entries).length →
      nextVersion (get_versions entries) ((get_versions entries).getD i (0, 0, 0)) =
        none) ∧
    (∀ current : Version, current ∉ get_versions entries →
      nextVersion (get_versions entries) current = (get_versions entries).head?) ∧
    (∀ n : Nat, (get_versions entries).length - 1 ≤ n →
      iterateNext (get_versions entries) (0, 0, 0) n =
        (get_versions entries).drop 1) := by
  refine ⟨fun i h => nextVersion_getD_succ hnd h,
    fun i h => nextVersion_getD_last hnd (by omega) h, ?_, ?_⟩
  · intro current hmem
    unfold nextVersion
    rw [if_neg hmem]
  · intro n hn
    have h0 : (get_versions entries).getD 0 (0, 0, 0) = (0, 0, 0) := by
      rw [get_versions_eq_sentinel_cons]
      rfl
    have hlen : 0 < (get_versions entries).length := by
      rw [get_versions_eq_sentinel_cons]
      simp
    rw [← h0]
    exact iterateNext_getD hnd n 0 hlen (by omega)

/-- Witness for C2's amended statement on the duplicate-free catalog
`1.16.0, 1.17.0`: iterating from the sentinel visits the two cataloged
versions once each, in catalog order. -/
theorem nextVersion_nodup_iteration_witness :
    iterateNext (get_versions ["1.16.0", "1.17.0"]) (0, 0, 0) 2 =
      [(1, 16, 0), (1, 17, 0)] :=
  ((nextVersion_nodup_iteration ["1.16.0", "1.17.0"] (by decide)).2.2.2 2
    (by decide)).trans (by decide)

lemma toNat_ofNat_digit {n : Nat} (h : n < 10) : (Char.ofNat (48 + n)).toNat = 48 + n := by
  interval_cases n <;> decide

lemma digitsToNat_concat (xs : List Char) (c : Char) :
    digitsToNat (xs ++ [c]) = digitsToNat xs * 10 + (c.toNat - 48) := by
  unfold digitsToNat
  rw [List.foldl_append]
  rfl

lemma natToDigitsAux_val : ∀ (fuel n : Nat), n < fuel →
    digitsToNat (natToDigitsAux fuel n) = n := by
  intro fuel
  induction fuel with
  | zero => omega
  | succ fuel ih =>
    intro n hn
    unfold natToDigitsAux
    by_cases h10 : n < 10
    · rw [if_pos h10]
      unfold digitsToNat
      simp [List.foldl, toNat_ofNat_digit h10]
    · rw [if_neg h10]
      rw [digitsToNat_concat, ih (n / 10) (by omega),
        toNat_ofNat_digit (Nat.mod_lt n (by omega))]
      omega

lemma natToDigits_val (n : Nat) : digitsToNat (natToDigits n) = n :=
  natToDigitsAux_val (n + 1) n (Nat.lt_succ_self n)

lemma natToDigitsAux_all_digits : ∀ (fuel n : Nat),
    (natToDigitsAux fuel n).all isDigitChar = true := by
  intro fuel
  induction fuel with
  | zero => intro n; rfl
  | succ fuel ih =>
    intro n
    unfold natToDigitsAux
    by_cases h10 : n < 10
    · rw [if_pos h10]
      simp [isDigitChar, toNat_ofNat_digit h10]
      omega
    · rw [if_neg h10]
      simp only [List.all_append, ih (n / 10), Bool.true_and, List.all_cons, List.all_nil,
        Bool.and_true]
      simp [isDigitChar, toNat_ofNat_digit (Nat.mod_lt n (by omega))]
      omega

lemma natToDigits_all_digits (n : Nat) : (natToDigits n).all isDigitChar = true :=
  natToDigitsAux_all_digits (n + 1) n

lemma natToDigitsAux_ne_nil (fuel n : Nat) (h : 0 < fuel) : natToDigitsAux fuel n ≠ [] := by
  cases fuel with
  | zero => omega
  | succ fuel =>
    unfold natToDigitsAux
    by_cases h10 : n < 10
    · rw [if_pos h10]; simp
    · rw [if_neg h10]; simp

lemma natToDigits_ne_nil (n : Nat) : natToDigits n ≠ [] :=
  natToDigitsAux_ne_nil (n + 1) n (Nat.succ_pos n)

lemma parseNum_natToDigits (n : Nat) : parseNum (natToDigits n) = some n := by
  unfold parseNum
  rw [if_pos]
  · rw [natToDigits_val]
  · simp [natToDigits_ne_nil n, natToDigits_all_digits n]

lemma digit_ne_of_all {l : List Char} (h : l.all isDigitChar = true) {c : Char}
    (hc : c ∈ l) : c.toNat ≠ 46 ∧ c.toNat ≠ 10 := by
  have := (List.all_eq_true.mp h) c hc
  unfold isDigitChar at this
  simp only [Bool.and_eq_true, decide_eq_true_eq] at this
  omega

lemma splitOnCh_no_sep {sep : Char} : ∀ {l : List Char}, (∀ c ∈ l, c ≠ sep) →
    splitOnCh sep l = [l] := by
  intro l
  induction l with
  | nil => intro _; rfl
  | cons c cs ih =>
    intro h
    unfold splitOnCh
    rw [if_neg (h c (List.mem_cons_self c cs))]
    rw [ih fun d hd => h d (List.mem_cons_of_mem c hd)]

lemma splitOnCh_append {sep : Char} : ∀ {xs : List Char} (ys : List Char),
    (∀ c ∈ xs, c ≠ sep) →
    splitOnCh sep (xs ++ sep :: ys) = xs :: splitOnCh sep ys := by
  intro xs
  induction xs with
  | nil =>
    intro ys _
    show splitOnCh sep (sep :: ys) = [] :: splitOnCh sep ys
    simp only [splitOnCh]
    simp
  | cons c cs ih =>
    intro ys h
    show splitOnCh sep (c :: (cs ++ sep :: ys)) = (c :: cs) :: splitOnCh sep ys
    simp only [splitOnCh]
    rw [if_neg (h c (List.mem_cons_self c cs))]
    rw [ih ys fun d hd => h d (List.mem_cons_of_mem c hd)]

lemma digits_ne_dot {ds : List Char} (hd : ds.all isDigitChar = true) :
    ∀ c ∈ ds, c ≠ '.' :=
  fun c hc he => (digit_ne_of_all hd hc).1 (by rw [he]; rfl)

lemma stripTrailingNL_digits_tail {pre ds : List Char}
    (hne : ds ≠ []) (hd : ds.all isDigitChar = true) :
    stripTrailingNL (pre ++ '.' :: ds) = pre ++ '.' :: ds := by
  unfold stripTrailingNL
  rw [if_neg]
  intro heq
  have hmem : '\n' ∈ pre ++ '.' :: ds := List.mem_of_getLast?_eq_some heq
  have hlast : (pre ++ '.' :: ds).getLast? = ds.getLast? := by
    rw [List.getLast?_append]
    cases hgl : ds.getLast? with
    | none => exact absurd (List.getLast?_eq_none_iff.mp hgl) hne
    | some c => simp [List.getLast?_cons, hgl]
  rw [hlast] at heq
  have : '\n' ∈ ds := List.mem_of_getLast?_eq_some heq
  exact (digit_ne_of_all hd this).2 rfl

lemma parseNum_of_digits {ds : List Char} (hne : ds ≠ [])
    (hd : ds.all isDigitChar = true) : parseNum ds = some (digitsToNat ds) := by
  unfold parseNum
  rw [if_pos]
  simp [hne, hd]

lemma parse_version_two {ds1 ds2 : List Char}
    (h1 : ds1 ≠ []) (h1d : ds1.all isDigitChar = true)
    (h2 : ds2 ≠ []) (h2d : ds2.all isDigitChar = true) :
    parse_version ⟨ds1 ++ '.' :: ds2⟩ =
      some (digitsToNat ds1, digitsToNat ds2, 0) := by
  unfold parse_version
  rw [show (String.mk (ds1 ++ '.' :: ds2)).data = ds1 ++ '.' :: ds2 from rfl]
  rw [stripTrailingNL_digits_tail h2 h2d,
    splitOnCh_append _ (digits_ne_dot h1d),
    splitOnCh_no_sep (digits_ne_dot h2d)]
  simp [parseNum_of_digits h1 h1d, parseNum_of_digits h2 h2d]

lemma parse_version_three {ds1 ds2 ds3 : List Char}
    (h1 : ds1 ≠ []) (h1d : ds1.all isDigitChar = true)
    (h2 : ds2 ≠ []) (h2d : ds2.all isDigitChar = true)
    (h3 : ds3 ≠ []) (h3d : ds3.all isDigitChar = true) :
    parse_version ⟨ds1 ++ '.' :: (ds2 ++ '.' :: ds3)⟩ =
      some (digitsToNat ds1, digitsToNat ds2, digitsToNat ds3) := by
  unfold parse_version
  rw [show (String.mk (ds1 ++ '.' :: (ds2 ++ '.' :: ds3))).data =
    ds1 ++ '.' :: (ds2 ++ '.' :: ds3) from rfl]
  have hassoc : ds1 ++ '.' :: (ds2 ++ '.' :: ds3) =
      (ds1 ++ '.' :: ds2) ++ '.' :: ds3 := by
    simp
  have hstrip : stripTrailingNL (ds1 ++ '.' :: (ds2 ++ '.' :: ds3)) =
      ds1 ++ '.' :: (ds2 ++ '.' :: ds3) := by
    rw [hassoc, stripTrailingNL_digits_tail h3 h3d]
  rw [hstrip, splitOnCh_append _ (digits_ne_dot h1d),
    splitOnCh_append _ (digits_ne_dot h2d),
    splitOnCh_no_sep (digits_ne_dot h3d)]
  simp [parseNum_of_digits h1 h1d, parseNum_of_digits h2 h2d, parseNum_of_digits h3 h3d]

lemma natToString_cat_two (a b : Nat) :
    natToString a ++ "." ++ natToString b = ⟨natToDigits a ++ '.' :: natToDigits b⟩ := by
  apply String.ext
  simp only [String.data_append, natToString]
  simp

lemma natToString_cat_three (a b c : Nat) :
    natToString a ++ "." ++ natToString b ++ "." ++ natToString c =
      ⟨natToDigits a ++ '.' :: (natToDigits b ++ '.' :: natToDigits c)⟩ := by
  apply String.ext
  simp only [String.data_append, natToString]
  simp

/-- C7: parse–format round trip.  For every valid version string — two or
three nonempty digit runs separated by dots — `parse_version` yields the
numeric (major, minor, patch) components with the patch defaulting to 0
when absent, and `version_to_string` renders a parsed tuple back as
`MAJOR.MINOR.PATCH`; in particular, on canonically rendered components
the composition reproduces the input extended with `.0` when the patch
was absent. -/
theorem parse_format_roundtrip (a b c : Nat) (ds1 ds2 ds3 : List Char)
    (h1 : ds1 ≠ [] ∧ ds1.all isDigitChar = true)
    (h2 : ds2 ≠ [] ∧ ds2.all isDigitChar = true)
    (h3 : ds3 ≠ [] ∧ ds3.all isDigitChar = true) :
    parse_version ⟨ds1 ++ '.' :: ds2⟩ =
      some (digitsToNat ds1, digitsToNat ds2, 0) ∧
    parse_version ⟨ds1 ++ '.' :: (ds2 ++ '.' :: ds3)⟩ =
      some (digitsToNat ds1, digitsToNat ds2, digitsToNat ds3) ∧
    parse_version (natToString a ++ "." ++ natToString b) = some (a, b, 0) ∧
    parse_version (natToString a ++ "." ++ natToString b ++ "." ++ natToString c) =
      some (a, b, c) ∧
    version_to_string (a, b, 0) = natToString a ++ "." ++ natToString b ++ ".0" ∧
    version_to_string (a, b, c) =
      natToString a ++ "." ++ natToString b ++ "." ++ natToString c := by
  refine ⟨parse_version_two h1.1 h1.2 h2.1 h2.2,
    parse_version_three h1.1 h1.2 h2.1 h2.2 h3.1 h3.2, ?_, ?_, ?_, rfl⟩
  · rw [natToString_cat_two]
    have h := parse_version_two (natToDigits_ne_nil a) (natToDigits_all_digits a)
      (natToDigits_ne_nil b) (natToDigits_all_digits b)
    rw [natToDigits_val a, natToDigits_val b] at h
    exact h
  · rw [natToString_cat_three]
    have h := parse_version_three (natToDigits_ne_nil a) (natToDigits_all_digits a)
      (natToDigits_ne_nil b) (natToDigits_all_digits b)
      (natToDigits_ne_nil c) (natToDigits_all_digits c)
    rw [natToDigits_val a, natToDigits_val b, natToDigits_val c] at h
    exact h
  · show natToString a ++ "." ++ natToString b ++ "." ++ natToString 0 =
      natToString a ++ "." ++ natToString b ++ ".0"
    apply String.ext
    simp only [String.data_append, natToString]
    simp [show natToDigits 0 = ['0'] from rfl]

/-- Witness for C7 at the concrete input `1.2`: parsing yields
`(1, 2, 0)` and formatting that tuple yields `1.2.0`. -/
theorem parse_format_roundtrip_witness :
    parse_version "1.2" = some (1, 2, 0) ∧ version_to_string (1, 2, 0) = "1.2.0" := by
  have T := parse_format_roundtrip 1 2 0 ['1'] ['2'] ['0']
    (by decide) (by decide) (by decide)
  constructor
  · rw [show ("1.2" : String) = ⟨['1'] ++ '.' :: ['2']⟩ from by decide]
    exact T.1.trans (by decide)
  · exact T.2.2.2.2.1.trans (by decide)
